import Mathlib

/-!
Verification development for the `imagemodify` image-hash-modification
library (Go). The Go source is shallowly embedded: byte buffers become
`List Nat` (each element a byte value 0-255), Go `int` arithmetic becomes
`Int`/`Nat` with explicit `% 256` / `% 2^32` where the source casts,
fallible operations return `Except ModError _`, and external library
calls (SHA-1, JSON, the raster codecs) become explicit function
parameters, since only their input/output behaviour is observable here.
-/

/-- Byte buffers: each element is a byte value (0-255). -/
abbrev Bytes := List Nat

/-- Byte string of an ASCII Lean string (used for the fixed keyword and
chunk-type literals appearing in the source). -/
def strB (s : String) : Bytes := s.toList.map (fun c => c.toNat)

/-- Errors of the library, one constructor per `fmt.Errorf` failure class
in the source (names follow the specification's taxonomy). -/
inductive ModError where
  | unsupportedFormat
  | invalidContainer
  | decodeFailure
  | encodeFailure
  | noOpFailure
  | noEdgePixels
  deriving DecidableEq, Repr

/-- Big-endian 4-byte encoding, as `binary.BigEndian.PutUint32`.
(The `uint32` cast in the source is the implicit `% 2^32`; each output
byte only depends on the low 32 bits, so no explicit mask is needed.) -/
def be32 (n : Nat) : Bytes :=
  [n / 2 ^ 24 % 256, n / 2 ^ 16 % 256, n / 2 ^ 8 % 256, n % 256]

/-- Big-endian 4-byte read at the head of a buffer, as
`binary.BigEndian.Uint32(data[pos : pos+4])`. -/
def readBE32 (l : Bytes) : Nat :=
  l.getD 0 0 * 2 ^ 24 + l.getD 1 0 * 2 ^ 16 + l.getD 2 0 * 2 ^ 8 + l.getD 3 0

/-- Go `int(a)<<8 | int(b)` on two byte values (JPEG 2-byte big-endian
segment length). On byte values the bit-or coincides with `+`. -/
def beWord (a b : Nat) : Nat := a * 256 + b

/-- One bit step of CRC-32 (IEEE polynomial 0xEDB88320, reversed form). -/
def crc32Bit (c : Nat) : Nat :=
  if c % 2 = 1 then (c / 2) ^^^ 0xEDB88320 else c / 2

/-- One byte step of CRC-32. -/
def crc32Byte (c b : Nat) : Nat :=
  crc32Bit (crc32Bit (crc32Bit (crc32Bit (crc32Bit (crc32Bit (crc32Bit (crc32Bit (c ^^^ b % 256))))))))

/-- CRC-32 checksum with the IEEE polynomial, as `crc32.ChecksumIEEE`
(init 0xFFFFFFFF, bitwise update, final complement). -/
def crc32IEEE (data : Bytes) : Nat :=
  (data.foldl crc32Byte 0xFFFFFFFF) ^^^ 0xFFFFFFFF

/-- The 8-byte PNG signature `{0x89, 'P', 'N', 'G', 0x0D, 0x0A, 0x1A, 0x0A}`. -/
def pngSig : Bytes := [0x89, 0x50, 0x4E, 0x47, 0x0D, 0x0A, 0x1A, 0x0A]

/-- The PNG signature check used by `modifyPNGSHA1`, `modifyPNGMetadata`
and `getPNGMetadata`: `len(data) >= 8 && bytes.Equal(data[:8], pngSig)`. -/
def hasPNGSig (data : Bytes) : Prop := 8 ≤ data.length ∧ data.take 8 = pngSig

instance (data : Bytes) : Decidable (hasPNGSig data) := by
  unfold hasPNGSig; infer_instance

/-- `PixelCoord` of the source: a pixel coordinate (Go `int` fields). -/
structure PixelCoord where
  X : Int
  Y : Int
  deriving DecidableEq, Repr

/-- `getEdgePixels`: border-pixel coordinates — for each `x < width` the
pair `(x,0)`, `(x,height-1)`, then for `y` from 1 while `y < height-1`
the pair `(0,y)`, `(width-1,y)`. -/
def getEdgePixels (width height : Nat) : List PixelCoord :=
  ((List.range width).flatMap
    (fun x => [⟨x, 0⟩, ⟨x, (height : Int) - 1⟩])) ++
  ((List.range (height - 2)).flatMap
    (fun i => [⟨0, (1 + i : Nat)⟩, ⟨(width : Int) - 1, (1 + i : Nat)⟩]))

/-- `clampUint8`: clamp a Go `int` into 0-255. -/
def clampUint8 (value : Int) : Nat :=
  if value < 0 then 0
  else if 255 < value then 255
  else value.toNat

/-- A `color.RGBA` value (each field a byte value). -/
structure RGBA where
  r : Nat
  g : Nat
  b : Nat
  a : Nat
  deriving DecidableEq, Repr

/-- The pixel-perturbation body of `modifyJPEGPixel`/`modifyPNGPixel`:
`adjustment := int8(randomBytes[1]%5) - 2`, the same adjustment added to
R, G and B through `clampUint8`, alpha written back unchanged. -/
def perturbColor (origColor : RGBA) (b1 : Nat) : RGBA :=
  let adjustment : Int := (b1 % 5 : Nat) - 2
  { r := clampUint8 (origColor.r + adjustment)
    g := clampUint8 (origColor.g + adjustment)
    b := clampUint8 (origColor.b + adjustment)
    a := origColor.a }

/-- `insertJPEGComment`: splice a `0xFF 0xFE` comment segment (2-byte
big-endian declared length = payload length + 2, each length byte a Go
`byte(..)` cast) immediately after the 2-byte SOI marker; buffers shorter
than 4 bytes are returned unchanged. -/
def insertJPEGComment (data comment : Bytes) : Bytes :=
  if data.length < 4 then data
  else
    let commentLength := comment.length + 2
    let commentSegment := [0xFF, 0xFE, commentLength >>> 8 % 256, commentLength % 256] ++ comment
    data.take 2 ++ commentSegment ++ data.drop 2

/-- Chunk-type literal `tEXt`. -/
def tEXtT : Bytes := strB ("tEXt")

/-- Chunk-type literal `zTXt`. -/
def zTXtT : Bytes := strB ("zTXt")

/-- Chunk-type literal `iTXt`. -/
def iTXtT : Bytes := strB ("iTXt")

/-- Chunk-type literal `IEND`. -/
def iendT : Bytes := strB ("IEND")

/-- Keyword `Random` used by the auxiliary-chunk mode. -/
def kwRandom : Bytes := strB ("Random")

/-- Concatenation of a list of byte buffers. -/
def flatCat : List Bytes → Bytes
  | [] => []
  | x :: xs => x ++ flatCat xs

/-- Loop body of `removeJPEGComments`, expressed on the suffix
`rem = data[pos:]` (the loop guard `pos < len(data)-4` becomes
`rem.length > 4`; reads `data[pos+k]` become `rem.getD k 0`). When the
guard fails the Go loop exits and the bytes at `pos` and beyond are
dropped; a non-`0xFF` byte or a marker without a length field copies the
rest verbatim; a `0xFE` comment segment is skipped; other length-bearing
segments (`0xE0`-`0xEF`) are copied (the segment copy is capped at the
buffer end, as Go caps `endPos`). The two `pos+2 > len(data)` breaks in
the source are unreachable because the loop guard leaves at least 5
bytes. -/
def jpegRemoveAux : Nat → Bytes → Bytes
  | 0, _ => []
  | fuel + 1, rem =>
    if rem.length ≤ 4 then []
    else if rem.getD 0 0 ≠ 0xFF then rem
    else
      let marker := rem.getD 1 0
      if marker = 0xFE then
        let segmentLen := beWord (rem.getD 2 0) (rem.getD 3 0)
        jpegRemoveAux fuel (rem.drop (2 + segmentLen))
      else if (0xE0 ≤ marker ∧ marker ≤ 0xEF) ∨ marker = 0xFE then
        let segmentLen := beWord (rem.getD 2 0) (rem.getD 3 0)
        [0xFF, marker] ++ (rem.drop 2).take segmentLen ++
          jpegRemoveAux fuel (rem.drop (2 + segmentLen))
      else
        [0xFF, marker] ++ rem.drop 2

/-- `removeJPEGComments`: strip all `0xFF 0xFE` comment segments; buffers
shorter than 4 bytes are returned unchanged. (The fuel argument only
bounds the loop: every iteration consumes at least 2 bytes of the
suffix, so fuel equal to the suffix length is never exhausted.) -/
def removeJPEGComments (data : Bytes) : Bytes :=
  if data.length < 4 then data
  else data.take 2 ++ jpegRemoveAux (data.drop 2).length (data.drop 2)

/-- Loop body of `extractJPEGComment` on the suffix `rem = data[pos:]`:
returns the first comment segment's payload, if any. The Go `int`
subtraction `segmentLen - 2` can go negative only when `segmentLen < 2`,
in which case the `commentLen > 0` test fails in both Go and this
model. -/
def jpegExtractAux : Nat → Bytes → Option Bytes
  | 0, _ => none
  | fuel + 1, rem =>
    if rem.length ≤ 4 then none
    else if rem.getD 0 0 ≠ 0xFF then none
    else
      let marker := rem.getD 1 0
      if marker = 0xFE then
        let segmentLen := beWord (rem.getD 2 0) (rem.getD 3 0)
        let commentLen := segmentLen - 2
        if 4 + commentLen ≤ rem.length ∧ 0 < commentLen then
          some ((rem.drop 4).take commentLen)
        else none
      else if (0xE0 ≤ marker ∧ marker ≤ 0xEF) ∨ marker = 0xFE then
        jpegExtractAux fuel (rem.drop (2 + beWord (rem.getD 2 0) (rem.getD 3 0)))
      else none

/-- `extractJPEGComment`: payload of the first `0xFF 0xFE` comment
segment, or `none` (Go `nil`). Fuel as in `jpegRemoveAux`. -/
def extractJPEGComment (data : Bytes) : Option Bytes :=
  if data.length < 4 then none
  else jpegExtractAux (data.drop 2).length (data.drop 2)

/-- Loop body of `removeExistingTextChunks` on the suffix
`rem = data[pos:]` (loop guard `pos < len(data)-8` becomes
`rem.length > 8`). A chunk whose declared size reaches past the buffer
end is copied through whole; `tEXt`/`zTXt`/`iTXt` chunks are skipped;
other chunks are copied. When the guard fails the Go loop exits and the
remaining (at most 8) bytes are dropped. The two bounds breaks in the
source are unreachable under the guard. -/
def pngRemoveAux : Nat → Bytes → Bytes
  | 0, _ => []
  | fuel + 1, rem =>
    if rem.length ≤ 8 then []
    else
      let chunkLen := readBE32 rem
      let totalChunkSize := chunkLen + 12
      if rem.length < totalChunkSize then rem
      else
        let chunkType := (rem.drop 4).take 4
        if chunkType = tEXtT ∨ chunkType = zTXtT ∨ chunkType = iTXtT then
          pngRemoveAux fuel (rem.drop totalChunkSize)
        else
          rem.take totalChunkSize ++ pngRemoveAux fuel (rem.drop totalChunkSize)

/-- `removeExistingTextChunks`: keep the 8-byte signature, then walk the
chunks. (The Go function indexes `data[:8]` unconditionally, so callers
guarantee `8 ≤ data.length`; the model's `take` is total. Fuel only
bounds the loop: every iteration consumes at least 12 bytes.) -/
def removeExistingTextChunks (data : Bytes) : Bytes :=
  data.take 8 ++ pngRemoveAux (data.drop 8).length (data.drop 8)

/-- Loop body of `findPNGIENDChunk` on the suffix `rem = data[pos:]`:
offset (relative to `rem`) of the first chunk whose type is `IEND`, or
`none`. -/
def findIENDAux : Nat → Bytes → Option Nat
  | 0, _ => none
  | fuel + 1, rem =>
    if rem.length ≤ 8 then none
    else
      let chunkLen := readBE32 rem
      let chunkType := (rem.drop 4).take 4
      if chunkType = iendT then some 0
      else (findIENDAux fuel (rem.drop (chunkLen + 12))).map (fun o => chunkLen + 12 + o)

/-- `findPNGIENDChunk`: absolute start offset of the IEND chunk (Go
returns `-1` when absent, modelled as `none`). Fuel as in
`pngRemoveAux`. -/
def findPNGIENDChunk (data : Bytes) : Option Nat :=
  (findIENDAux (data.drop 8).length (data.drop 8)).map (fun o => 8 + o)

/-- `createPNGTextChunk` (also the chunk built inline by the
`insertPNGTextChunk` of the `imagesha1` variant): 4-byte big-endian
length of `keyword‖0x00‖text`, the type `tEXt`, the payload, and the
big-endian CRC-32 (IEEE) of type‖payload. -/
def createPNGTextChunk (keyword text : Bytes) : Bytes :=
  let textData := keyword ++ 0 :: text
  be32 textData.length ++ tEXtT ++ textData ++ be32 (crc32IEEE (tEXtT ++ textData))

/-- `insertPNGTextChunk`: splice one `tEXt` chunk immediately before the
IEND chunk, or at the end of the buffer when IEND is not found. -/
def insertPNGTextChunk (data keyword text : Bytes) : Bytes :=
  let iendPos := (findPNGIENDChunk data).getD data.length
  data.take iendPos ++ createPNGTextChunk keyword text ++ data.drop iendPos

/-- `insertPNGTextChunks`: splice a list of chunks immediately before the
IEND chunk, or at the end of the buffer when IEND is not found. -/
def insertPNGTextChunks (data : Bytes) (chunks : List Bytes) : Bytes :=
  let iendPos := (findPNGIENDChunk data).getD data.length
  data.take iendPos ++ flatCat chunks ++ data.drop iendPos

/-- `modifyPNGSHA1` (`imagesha1` variant of the auxiliary-chunk mode):
reject buffers without the PNG signature, else insert one `Random` tEXt
chunk whose text is the 32 random bytes. -/
def modifyPNGSHA1 (r32 data : Bytes) : Except ModError Bytes :=
  if hasPNGSig data then .ok (insertPNGTextChunk data kwRandom r32)
  else .error .invalidContainer

/-- A wall-clock timestamp at the granularity preserved by the source's
`time.Format("2006-01-02T15:04:05Z")` round-trip (the external `time`
package is modelled at second granularity; the layout's trailing `Z` is a
literal in Go, so no zone conversion happens on format or parse). -/
structure GoTime where
  year : Nat
  month : Nat
  day : Nat
  hour : Nat
  minute : Nat
  second : Nat
  deriving DecidableEq, Repr

/-- `ImageMetadata` of the source. Go strings are byte buffers; the
`*time.Time` pointer field is an `Option`; width/height are Go `int`s. -/
structure ImageMetadata where
  artist : Bytes
  copyright : Bytes
  description : Bytes
  dateTime : Option GoTime
  location : Bytes
  cameraMake : Bytes
  cameraModel : Bytes
  software : Bytes
  imageWidth : Int
  imageHeight : Int
  deriving DecidableEq, Repr

/-- The zero `ImageMetadata{}` record. -/
def emptyMetadata : ImageMetadata :=
  { artist := [], copyright := [], description := [], dateTime := none
    location := [], cameraMake := [], cameraModel := [], software := []
    imageWidth := 0, imageHeight := 0 }

/-- Decimal digits (ASCII) of a natural number, most significant first
(fuelled; the fuel strictly exceeds the value, which the digit count
never reaches). -/
def natDigitsF : Nat → Nat → Bytes
  | 0, _ => []
  | fuel + 1, m =>
    if m < 10 then [48 + m]
    else natDigitsF fuel (m / 10) ++ [48 + m % 10]

/-- Decimal digits (ASCII) of a natural number, most significant first. -/
def natDigits (m : Nat) : Bytes := natDigitsF (m + 1) m

/-- `strconv.Itoa` on a Go `int`. -/
def itoa (n : Int) : Bytes :=
  if n < 0 then 45 :: natDigits (-n).toNat else natDigits n.toNat

/-- Value of a run of ASCII digits, most significant first. -/
def digitsVal (acc : Nat) (s : Bytes) : Nat :=
  s.foldl (fun a c => a * 10 + (c - 48)) acc

/-- Parse a nonempty all-digit byte string. -/
def atoiDigits (s : Bytes) : Option Nat :=
  if s = [] then none
  else if s.all (fun c => decide (48 ≤ c) && decide (c ≤ 57)) then
    some (digitsVal 0 s)
  else none

/-- `strconv.Atoi`: optional sign, digits, 64-bit range check (Go returns
an error on overflow, which callers treat as absence). -/
def atoi (s : Bytes) : Option Int :=
  match s with
  | 43 :: rest => (atoiDigits rest).bind
      (fun v => if v ≤ 2 ^ 63 - 1 then some (v : Int) else none)
  | 45 :: rest => (atoiDigits rest).bind
      (fun v => if v ≤ 2 ^ 63 then some (-(v : Int)) else none)
  | _ => (atoiDigits s).bind
      (fun v => if v ≤ 2 ^ 63 - 1 then some (v : Int) else none)

/-- Two zero-padded decimal digits (layout components `01`, `02`, ...). -/
def pad2 (n : Nat) : Bytes := [48 + n / 10 % 10, 48 + n % 10]

/-- Four zero-padded decimal digits (layout component `2006`). -/
def pad4 (n : Nat) : Bytes :=
  [48 + n / 1000 % 10, 48 + n / 100 % 10, 48 + n / 10 % 10, 48 + n % 10]

/-- `DateTime.Format("2006-01-02T15:04:05Z")` — the PNG `Creation Time`
text (the `Z` is a literal byte in this layout). -/
def formatCreationTime (t : GoTime) : Bytes :=
  pad4 t.year ++ [45] ++ pad2 t.month ++ [45] ++ pad2 t.day ++ [84] ++
    pad2 t.hour ++ [58] ++ pad2 t.minute ++ [58] ++ pad2 t.second ++ [90]

/-- Read two ASCII digits as a number, returning the rest. -/
def read2 : Bytes → Option (Nat × Bytes)
  | a :: b :: rest =>
    if 48 ≤ a ∧ a ≤ 57 ∧ 48 ≤ b ∧ b ≤ 57 then
      some ((a - 48) * 10 + (b - 48), rest)
    else none
  | _ => none

/-- Read four ASCII digits as a number, returning the rest. -/
def read4 (s : Bytes) : Option (Nat × Bytes) :=
  (read2 s).bind (fun p => (read2 p.2).map (fun q => (p.1 * 100 + q.1, q.2)))

/-- Expect one specific byte, returning the rest. -/
def expectB (c : Nat) : Bytes → Option Bytes
  | x :: rest => if x = c then some rest else none
  | [] => none

/-- Gregorian leap-year rule (as Go's `time` package uses). -/
def isLeap (y : Nat) : Bool := (y % 4 == 0 && y % 100 != 0) || y % 400 == 0

/-- Days in a month (as Go's `time.Parse` range check uses). -/
def daysIn (y m : Nat) : Nat :=
  if m = 2 then (if isLeap y then 29 else 28)
  else if m = 4 ∨ m = 6 ∨ m = 9 ∨ m = 11 then 30
  else 31

/-- Field ranges accepted by `time.Parse` (the four-digit year is bounded
by the layout itself). -/
def timeOk (t : GoTime) : Prop :=
  t.year ≤ 9999 ∧ 1 ≤ t.month ∧ t.month ≤ 12 ∧ 1 ≤ t.day ∧
    t.day ≤ daysIn t.year t.month ∧ t.hour ≤ 23 ∧ t.minute ≤ 59 ∧ t.second ≤ 59

instance (t : GoTime) : Decidable (timeOk t) := by
  unfold timeOk; infer_instance

/-- `time.Parse("2006-01-02T15:04:05Z", text)`. -/
def parseTimeISO (s : Bytes) : Option GoTime :=
  (read4 s).bind fun py =>
  (expectB 45 py.2).bind fun r =>
  (read2 r).bind fun pmo =>
  (expectB 45 pmo.2).bind fun r =>
  (read2 r).bind fun pd =>
  (expectB 84 pd.2).bind fun r =>
  (read2 r).bind fun ph =>
  (expectB 58 ph.2).bind fun r =>
  (read2 r).bind fun pmi =>
  (expectB 58 pmi.2).bind fun r =>
  (read2 r).bind fun ps =>
  (expectB 90 ps.2).bind fun r =>
  let t : GoTime := ⟨py.1, pmo.1, pd.1, ph.1, pmi.1, ps.1⟩
  if r = [] ∧ timeOk t then some t else none

/-- `time.Parse("2006:01:02 15:04:05", text)` — the legacy form. -/
def parseTimeLegacy (s : Bytes) : Option GoTime :=
  (read4 s).bind fun py =>
  (expectB 58 py.2).bind fun r =>
  (read2 r).bind fun pmo =>
  (expectB 58 pmo.2).bind fun r =>
  (read2 r).bind fun pd =>
  (expectB 32 pd.2).bind fun r =>
  (read2 r).bind fun ph =>
  (expectB 58 ph.2).bind fun r =>
  (read2 r).bind fun pmi =>
  (expectB 58 pmi.2).bind fun r =>
  (read2 r).bind fun ps =>
  let t : GoTime := ⟨py.1, pmo.1, pd.1, ph.1, pmi.1, ps.1⟩
  if ps.2 = [] ∧ timeOk t then some t else none

/-- The `Creation Time` switch case: try the ISO form, then the legacy
form, first match wins. -/
def parseCreationTime (s : Bytes) : Option GoTime :=
  match parseTimeISO s with
  | some t => some t
  | none => parseTimeLegacy s

/-- `strings.ToLower` restricted to the byte level (exact for the ASCII
keywords this codec reads and writes). -/
def asciiToLower (s : Bytes) : Bytes :=
  s.map (fun c => if 65 ≤ c ∧ c ≤ 90 then c + 32 else c)

/-- `bytes.SplitN(data, []byte{0}, 2)`: split at the first zero byte;
`none` when there is no zero byte (one part only). -/
def splitFirstZero : Bytes → Option (Bytes × Bytes)
  | [] => none
  | 0 :: rest => some ([], rest)
  | c :: rest => (splitFirstZero rest).map (fun p => (c :: p.1, p.2))

/-- Keyword `Author`. -/
def kwAuthor : Bytes := strB ("Author")

/-- Keyword `Copyright`. -/
def kwCopyright : Bytes := strB ("Copyright")

/-- Keyword `Description`. -/
def kwDescription : Bytes := strB ("Description")

/-- Keyword `Creation Time`. -/
def kwCreationTime : Bytes := strB ("Creation Time")

/-- Keyword `Location`. -/
def kwLocation : Bytes := strB ("Location")

/-- Keyword `Camera Make`. -/
def kwCameraMake : Bytes := strB ("Camera Make")

/-- Keyword `Camera Model`. -/
def kwCameraModel : Bytes := strB ("Camera Model")

/-- Keyword `Software`. -/
def kwSoftware : Bytes := strB ("Software")

/-- Keyword `Image Width`. -/
def kwImageWidth : Bytes := strB ("Image Width")

/-- Keyword `Image Height`. -/
def kwImageHeight : Bytes := strB ("Image Height")

/-- `parsePNGTextChunk`: split the payload at the first zero byte into
keyword and text, lower-case the keyword, and set the matching field. -/
def parsePNGTextChunk (data : Bytes) (metadata : ImageMetadata) : ImageMetadata :=
  match splitFirstZero data with
  | none => metadata
  | some (kw, text) =>
    let k := asciiToLower kw
    if k = strB ("author") ∨ k = strB ("artist") then
      { metadata with artist := text }
    else if k = strB ("copyright") then { metadata with copyright := text }
    else if k = strB ("description") then { metadata with description := text }
    else if k = strB ("creation time") ∨ k = strB ("datetime") then
      match parseCreationTime text with
      | some t => { metadata with dateTime := some t }
      | none => metadata
    else if k = strB ("location") then { metadata with location := text }
    else if k = strB ("camera make") ∨ k = strB ("make") then
      { metadata with cameraMake := text }
    else if k = strB ("camera model") ∨ k = strB ("model") then
      { metadata with cameraModel := text }
    else if k = strB ("software") then { metadata with software := text }
    else if k = strB ("image width") ∨ k = strB ("width") then
      match atoi text with
      | some w => { metadata with imageWidth := w }
      | none => metadata
    else if k = strB ("image height") ∨ k = strB ("height") then
      match atoi text with
      | some h => { metadata with imageHeight := h }
      | none => metadata
    else metadata

/-- `createPNGTextChunks`: one `tEXt` chunk per set field, in source
order (a string field is set when nonempty, the time field when the
pointer is non-nil, width/height when positive). -/
def createPNGTextChunks (metadata : ImageMetadata) : List Bytes :=
  (if metadata.artist ≠ [] then [createPNGTextChunk kwAuthor metadata.artist] else []) ++
  (if metadata.copyright ≠ [] then [createPNGTextChunk kwCopyright metadata.copyright] else []) ++
  (if metadata.description ≠ [] then [createPNGTextChunk kwDescription metadata.description] else []) ++
  (match metadata.dateTime with
   | some t => [createPNGTextChunk kwCreationTime (formatCreationTime t)]
   | none => []) ++
  (if metadata.location ≠ [] then [createPNGTextChunk kwLocation metadata.location] else []) ++
  (if metadata.cameraMake ≠ [] then [createPNGTextChunk kwCameraMake metadata.cameraMake] else []) ++
  (if metadata.cameraModel ≠ [] then [createPNGTextChunk kwCameraModel metadata.cameraModel] else []) ++
  (if metadata.software ≠ [] then [createPNGTextChunk kwSoftware metadata.software] else []) ++
  (if 0 < metadata.imageWidth then [createPNGTextChunk kwImageWidth (itoa metadata.imageWidth)] else []) ++
  (if 0 < metadata.imageHeight then [createPNGTextChunk kwImageHeight (itoa metadata.imageHeight)] else [])

/-- `modifyPNGMetadata`: signature check, strip existing text chunks,
insert the freshly created ones before IEND. -/
def modifyPNGMetadata (data : Bytes) (metadata : ImageMetadata) : Except ModError Bytes :=
  if hasPNGSig data then
    .ok (insertPNGTextChunks (removeExistingTextChunks data) (createPNGTextChunks metadata))
  else .error .invalidContainer

/-- Chunk-walking loop of `getPNGMetadata` on the suffix
`rem = data[pos:]`: parse every in-bounds `tEXt` chunk into the record,
stop (after the parse step) at `IEND`. -/
def pngScanAux : Nat → Bytes → ImageMetadata → ImageMetadata
  | 0, _, metadata => metadata
  | fuel + 1, rem, metadata =>
    if rem.length ≤ 8 then metadata
    else
      let chunkLen := readBE32 rem
      let chunkType := (rem.drop 4).take 4
      let metadata' :=
        if chunkType = tEXtT ∧ 8 + chunkLen ≤ rem.length then
          parsePNGTextChunk ((rem.drop 8).take chunkLen) metadata
        else metadata
      if chunkType = iendT then metadata'
      else pngScanAux fuel (rem.drop (8 + chunkLen + 4)) metadata'

/-- `getPNGMetadata`, at the byte-buffer boundary (the file read is the
out-of-scope I/O boundary): signature check, then scan. Fuel as in
`pngRemoveAux`. -/
def getPNGMetadataB (data : Bytes) : Except ModError ImageMetadata :=
  if hasPNGSig data then .ok (pngScanAux (data.drop 8).length (data.drop 8) emptyMetadata)
  else .error .invalidContainer

/-- `modifyJPEGMetadata`: strip existing comment segments and insert one
comment holding the serialized record. `marshal` stands for the external
`json.Marshal` (the specification fixes only its round-trip contract;
on this record type it cannot fail). -/
def modifyJPEGMetadata (marshal : ImageMetadata → Bytes) (data : Bytes)
    (metadata : ImageMetadata) : Bytes :=
  insertJPEGComment (removeJPEGComments data) (marshal metadata)

/-- `getJPEGMetadata`, at the byte-buffer boundary: extract the first
comment segment; a missing comment or one `unmarshal` (the external
`json.Unmarshal`) rejects yields the empty record. -/
def getJPEGMetadataB (unmarshal : Bytes → Option ImageMetadata) (data : Bytes) :
    ImageMetadata :=
  match extractJPEGComment data with
  | none => emptyMetadata
  | some comment => (unmarshal comment).getD emptyMetadata

/-- The two container formats the dispatcher recognises. -/
inductive ImgFormat where
  | jpeg
  | png
  deriving DecidableEq, Repr

/-- The `switch ext` dispatch on the lower-cased file extension. -/
def extFormat (ext : Bytes) : Option ImgFormat :=
  if ext = strB (".jpg") ∨ ext = strB (".jpeg") then some .jpeg
  else if ext = strB (".png") then some .png
  else none

/-- `ModifyImageSHA1` (auxiliary-chunk mode, `imagemodify` variant,
at the byte-buffer boundary): dispatch on the extension, insert the
random comment / `Random` tEXt chunk, and fail with the no-change error
when the digest did not move; on success the digest and the bytes handed
to the write boundary are returned. `digest` stands for the external
SHA-1; `r16`/`r32` for the `generateRandomBytes` results. -/
def modifyImageSHA1 (digest : Bytes → Bytes) (ext data r16 r32 : Bytes) :
    Except ModError (Bytes × Bytes) :=
  let originalSHA1 := digest data
  match extFormat ext with
  | none => .error .unsupportedFormat
  | some .jpeg =>
    let modifiedData := insertJPEGComment data r16
    let newSHA1 := digest modifiedData
    if newSHA1 = originalSHA1 then .error .noOpFailure
    else .ok (newSHA1, modifiedData)
  | some .png =>
    let modifiedData := insertPNGTextChunk data kwRandom r32
    let newSHA1 := digest modifiedData
    if newSHA1 = originalSHA1 then .error .noOpFailure
    else .ok (newSHA1, modifiedData)

/-- The index formula `int(randomBytes[0]) % len(edgePixels)` used by
both pixel-mode functions. -/
def selectEdgeIndex (b0 len : Nat) : Nat := b0 % len

/-- The editable RGBA raster (`image.NewRGBA` copy of the decoded
image): its dimensions and its pixel function after the copy loop. The
external decode and the `Set`/`At` colour conversions live behind the
decoder parameter. -/
structure GoImage where
  width : Nat
  height : Nat
  rgbaAt : Int → Int → RGBA

/-- `SetRGBA`: the raster with one pixel replaced. -/
def setRGBApix (img : GoImage) (p : PixelCoord) (c : RGBA) : GoImage :=
  { img with rgbaAt := fun x y => if x = p.X ∧ y = p.Y then c else img.rgbaAt x y }

/-- Observable outcome of the shared pixel-perturbation body. -/
structure PerturbResult where
  selected : PixelCoord
  newColor : RGBA
  newImg : GoImage

/-- The shared body of `modifyJPEGPixel`/`modifyPNGPixel` after decoding:
enumerate border pixels (error when empty), select index
`randomBytes[0] % len`, perturb that pixel, write it back. -/
def perturbEdgePixel (img : GoImage) (b0 b1 : Nat) : Except ModError PerturbResult :=
  let edgePixels := getEdgePixels img.width img.height
  if edgePixels.length = 0 then .error .noEdgePixels
  else
    let pixelIndex := selectEdgeIndex b0 edgePixels.length
    let selectedPixel := edgePixels.getD pixelIndex ⟨0, 0⟩
    let origColor := img.rgbaAt selectedPixel.X selectedPixel.Y
    let newColor := perturbColor origColor b1
    .ok ⟨selectedPixel, newColor, setRGBApix img selectedPixel newColor⟩

/-- `modifyPNGPixel`: decode (external `png.Decode` as `dec`), perturb
one border pixel, re-encode (external `png.Encode` as `enc`). -/
def modifyPNGPixel (dec : Bytes → Option GoImage) (enc : GoImage → Option Bytes)
    (b0 b1 : Nat) (data : Bytes) : Except ModError Bytes :=
  match dec data with
  | none => .error .decodeFailure
  | some img =>
    match perturbEdgePixel img b0 b1 with
    | .error e => .error e
    | .ok r =>
      match enc r.newImg with
      | none => .error .encodeFailure
      | some out => .ok out

/-- `modifyJPEGPixel`: same body as `modifyPNGPixel` with the JPEG codec
(`jpeg.Decode` / `jpeg.Encode` at quality 95) behind the parameters. -/
def modifyJPEGPixel (dec : Bytes → Option GoImage) (enc : GoImage → Option Bytes)
    (b0 b1 : Nat) (data : Bytes) : Except ModError Bytes :=
  match dec data with
  | none => .error .decodeFailure
  | some img =>
    match perturbEdgePixel img b0 b1 with
    | .error e => .error e
    | .ok r =>
      match enc r.newImg with
      | none => .error .encodeFailure
      | some out => .ok out

/-- `ModifyImageSHA1ByPixel` (pixel-perturbation mode, at the byte-buffer
boundary): dispatch, perturb, no-change guard. `b0`, `b1` are
`randomBytes[0]`, `randomBytes[1]` of the 4 random bytes drawn. -/
def modifyImageSHA1ByPixel (digest : Bytes → Bytes)
    (jdec : Bytes → Option GoImage) (jenc : GoImage → Option Bytes)
    (pdec : Bytes → Option GoImage) (penc : GoImage → Option Bytes)
    (ext data : Bytes) (b0 b1 : Nat) : Except ModError (Bytes × Bytes) :=
  let originalSHA1 := digest data
  match extFormat ext with
  | none => .error .unsupportedFormat
  | some .jpeg =>
    match modifyJPEGPixel jdec jenc b0 b1 data with
    | .error e => .error e
    | .ok modifiedData =>
      let newSHA1 := digest modifiedData
      if newSHA1 = originalSHA1 then .error .noOpFailure
      else .ok (newSHA1, modifiedData)
  | some .png =>
    match modifyPNGPixel pdec penc b0 b1 data with
    | .error e => .error e
    | .ok modifiedData =>
      let newSHA1 := digest modifiedData
      if newSHA1 = originalSHA1 then .error .noOpFailure
      else .ok (newSHA1, modifiedData)

/-- `ModifyImageMetadata` (metadata mode, at the byte-buffer boundary):
dispatch, rewrite the metadata surface, no-change guard. -/
def modifyImageMetadata (digest : Bytes → Bytes) (marshal : ImageMetadata → Bytes)
    (ext data : Bytes) (metadata : ImageMetadata) : Except ModError (Bytes × Bytes) :=
  let originalSHA1 := digest data
  match extFormat ext with
  | none => .error .unsupportedFormat
  | some .jpeg =>
    let modifiedData := modifyJPEGMetadata marshal data metadata
    let newSHA1 := digest modifiedData
    if newSHA1 = originalSHA1 then .error .noOpFailure
    else .ok (newSHA1, modifiedData)
  | some .png =>
    match modifyPNGMetadata data metadata with
    | .error e => .error e
    | .ok modifiedData =>
      let newSHA1 := digest modifiedData
      if newSHA1 = originalSHA1 then .error .noOpFailure
      else .ok (newSHA1, modifiedData)

section EdgePixelLemmas

/-- Membership in a flat-mapped pair list. -/
theorem mem_pairList (g k : Nat → PixelCoord) (l : List Nat) (p : PixelCoord) :
    p ∈ l.flatMap (fun x => [g x, k x]) ↔ ∃ x ∈ l, p = g x ∨ p = k x := by
  simp [List.mem_flatMap]

/-- Length of a flat-mapped pair list. -/
theorem length_pairList (g k : Nat → PixelCoord) (l : List Nat) :
    (l.flatMap (fun x => [g x, k x])).length = 2 * l.length := by
  induction l with
  | nil => rfl
  | cons a t ih => simp [List.flatMap_cons, ih]; omega

/-- A flat-mapped pair list over distinct seeds, with the two pair
components distinguishable and every cross-equation forcing equal seeds,
has no duplicates. -/
theorem nodup_pairList (g k : Nat → PixelCoord) (l : List Nat) (hl : l.Nodup)
    (hgk : ∀ x, g x ≠ k x)
    (hinj : ∀ x y, (g x = g y ∨ g x = k y ∨ k x = g y ∨ k x = k y) → x = y) :
    (l.flatMap (fun x => [g x, k x])).Nodup := by
  induction l with
  | nil => exact List.nodup_nil
  | cons a t ih =>
    rw [List.flatMap_cons]
    have ht : t.Nodup := (List.nodup_cons.mp hl).2
    have ha : a ∉ t := (List.nodup_cons.mp hl).1
    have hrest : (t.flatMap (fun x => [g x, k x])).Nodup := ih ht
    have hgmem : g a ∉ t.flatMap (fun x => [g x, k x]) := by
      intro hmem
      rcases (mem_pairList g k t (g a)).mp hmem with ⟨x, hx, h | h⟩
      · exact ha ((hinj a x (Or.inl h)) ▸ hx)
      · exact ha ((hinj a x (Or.inr (Or.inl h))) ▸ hx)
    have hkmem : k a ∉ t.flatMap (fun x => [g x, k x]) := by
      intro hmem
      rcases (mem_pairList g k t (k a)).mp hmem with ⟨x, hx, h | h⟩
      · exact ha ((hinj a x (Or.inr (Or.inr (Or.inl h)))) ▸ hx)
      · exact ha ((hinj a x (Or.inr (Or.inr (Or.inr h)))) ▸ hx)
    simp only [List.cons_append, List.nodup_cons, List.singleton_append]
    refine ⟨?_, ?_, hrest⟩
    · simp only [List.mem_cons]
      rintro (h | h)
      · exact hgk a h
      · exact hgmem h
    · exact hkmem

end EdgePixelLemmas

/-- C4 (amended): for rasters with `width ≥ 2` and `height ≥ 2` the
border-pixel enumeration has no duplicate coordinate, has exactly
`2*width + 2*height - 4` entries, and contains precisely the coordinates
of the top row, bottom row, and left/right columns. (The unamended
claim, quantified over every width and height, fails at `height = 1`:
see the counterexample.) -/
theorem c4_edge_pixels (w h : Nat) (hw : 2 ≤ w) (hh : 2 ≤ h) :
    (getEdgePixels w h).Nodup ∧
    (getEdgePixels w h).length = 2 * w + 2 * h - 4 ∧
    ∀ x y : Int, (⟨x, y⟩ : PixelCoord) ∈ getEdgePixels w h ↔
      (0 ≤ x ∧ x < w ∧ 0 ≤ y ∧ y < h ∧
        (x = 0 ∨ x = (w : Int) - 1 ∨ y = 0 ∨ y = (h : Int) - 1)) := by
  refine ⟨?_, ?_, ?_⟩
  · unfold getEdgePixels
    rw [List.nodup_append]
    refine ⟨?_, ?_, ?_⟩
    · refine nodup_pairList _ _ _ (List.nodup_range _) ?_ ?_
      · intro x hx
        have hy := congrArg PixelCoord.Y hx
        simp at hy
        omega
      · intro x y hxy
        rcases hxy with hx | hx | hx | hx <;>
          · have h1 := congrArg PixelCoord.X hx
            have h2 := congrArg PixelCoord.Y hx
            simp at h1 h2
            omega
    · refine nodup_pairList _ _ _ (List.nodup_range _) ?_ ?_
      · intro x hx
        have hx' := congrArg PixelCoord.X hx
        simp at hx'
        omega
      · intro x y hxy
        rcases hxy with hx | hx | hx | hx <;>
          · have h1 := congrArg PixelCoord.X hx
            have h2 := congrArg PixelCoord.Y hx
            simp at h1 h2
            omega
    · intro p hp hq
      rcases (mem_pairList _ _ _ p).mp hp with ⟨x, hx, hpx | hpx⟩ <;>
        rcases (mem_pairList _ _ _ p).mp hq with ⟨i, hi, hpi | hpi⟩ <;>
        · rw [hpx] at hpi
          have h2 := congrArg PixelCoord.Y hpi
          simp [List.mem_range] at h2 hx hi
          omega
  · unfold getEdgePixels
    rw [List.length_append, length_pairList, length_pairList]
    simp [List.length_range]
    omega
  · intro x y
    unfold getEdgePixels
    rw [List.mem_append, mem_pairList, mem_pairList]
    constructor
    · rintro (⟨a, ha, hxy | hxy⟩ | ⟨a, ha, hxy | hxy⟩) <;>
        · have h1 := congrArg PixelCoord.X hxy
          have h2 := congrArg PixelCoord.Y hxy
          simp [List.mem_range] at h1 h2 ha
          omega
    · rintro ⟨hx0, hxw, hy0, hyh, hcase⟩
      by_cases hy : y = 0 ∨ y = (h : Int) - 1
      · refine Or.inl ⟨x.toNat, ?_, ?_⟩
        · simp [List.mem_range]; omega
        · rcases hy with hy | hy
          · refine Or.inl ?_
            simp [PixelCoord.mk.injEq, hy]
            omega
          · refine Or.inr ?_
            simp [PixelCoord.mk.injEq, hy]
            omega
      · have hx : x = 0 ∨ x = (w : Int) - 1 := by tauto
        refine Or.inr ⟨(y - 1).toNat, ?_, ?_⟩
        · simp [List.mem_range]; omega
        · rcases hx with hx | hx
          · refine Or.inl ?_
            simp [PixelCoord.mk.injEq, hx]
            omega
          · refine Or.inr ?_
            simp [PixelCoord.mk.injEq, hx]
            omega

/-- C4 counterexample: for height 1 (top and bottom row coincide) the
enumeration lists each border coordinate twice, refuting the claim's
"for every width and height ... no coordinate enumerated twice". -/
theorem c4_counterexample : ¬ (getEdgePixels 2 1).Nodup := by decide

/-- C4 witness: at the claim's 100×100 instance the enumeration has no
duplicates and exactly 396 coordinates. -/
theorem c4_witness : (getEdgePixels 100 100).Nodup ∧ (getEdgePixels 100 100).length = 396 :=
  ⟨(c4_edge_pixels 100 100 (by norm_num) (by norm_num)).1,
   by rw [(c4_edge_pixels 100 100 (by norm_num) (by norm_num)).2.1]⟩

/-- A concrete 2×2 raster used to instantiate witnesses. -/
def testImage : GoImage := ⟨2, 2, fun _ _ => ⟨10, 20, 30, 40⟩⟩

/-- C5: the pixel perturbation adds one signed delta in −2..+2 to the
red, green and blue channels of the selected pixel through `clampUint8`
(0 below 0, 255 above 255, identity in between) and writes the alpha
channel back unchanged; the perturbed colour produced by the pixel-mode
body is exactly `perturbColor` of the selected pixel's colour. -/
theorem c5_perturb_delta_clamp_alpha (c : RGBA) (b1 : Nat) (img : GoImage) (b0 : Nat)
    (hne : (getEdgePixels img.width img.height).length ≠ 0) :
    (∃ δ : Int, -2 ≤ δ ∧ δ ≤ 2 ∧
      perturbColor c b1 =
        ⟨clampUint8 (c.r + δ), clampUint8 (c.g + δ), clampUint8 (c.b + δ), c.a⟩) ∧
    (perturbColor c b1).a = c.a ∧
    (∀ v : Int, clampUint8 v = if v < 0 then 0 else if 255 < v then 255 else v.toNat) ∧
    (∃ r, perturbEdgePixel img b0 b1 = .ok r ∧
      r.newColor = perturbColor (img.rgbaAt r.selected.X r.selected.Y) b1) := by
  refine ⟨⟨(b1 % 5 : Nat) - 2, ?_, ?_, rfl⟩, rfl, fun v => rfl, ?_⟩
  · have : b1 % 5 < 5 := Nat.mod_lt _ (by omega)
    omega
  · have : b1 % 5 < 5 := Nat.mod_lt _ (by omega)
    omega
  · unfold perturbEdgePixel
    rw [if_neg hne]
    exact ⟨_, rfl, rfl⟩

/-- C5 witness: the theorem at a concrete colour, byte and 2×2 raster. -/
theorem c5_witness :
    (getEdgePixels testImage.width testImage.height).length ≠ 0 ∧
    ((∃ δ : Int, -2 ≤ δ ∧ δ ≤ 2 ∧
      perturbColor ⟨10, 20, 30, 40⟩ 1 =
        ⟨clampUint8 (10 + δ), clampUint8 (20 + δ), clampUint8 (30 + δ), 40⟩) ∧
    (perturbColor ⟨10, 20, 30, 40⟩ 1).a = 40 ∧
    (∀ v : Int, clampUint8 v = if v < 0 then 0 else if 255 < v then 255 else v.toNat) ∧
    (∃ r, perturbEdgePixel testImage 0 1 = .ok r ∧
      r.newColor = perturbColor (testImage.rgbaAt r.selected.X r.selected.Y) 1)) :=
  ⟨by decide, c5_perturb_delta_clamp_alpha ⟨10, 20, 30, 40⟩ 1 testImage 0 (by decide)⟩

/-- C2 (amended): the pixel-mode body selects the border pixel at index
`randomBytes[0] % len(edgePixels)`. That index is always in range and
every index below 256 is reachable by some byte, but a byte can never
reach an index at or above 256, so on border lists longer than 256 the
selection is not over the entire border-pixel set (and it is uniform
only when the list length divides 256). -/
theorem c2_selection_mod256 (img : GoImage) (b0 b1 : Nat) (hb : b0 < 256)
    (hne : (getEdgePixels img.width img.height).length ≠ 0) :
    (∃ r, perturbEdgePixel img b0 b1 = .ok r ∧
      r.selected = (getEdgePixels img.width img.height).getD
        (selectEdgeIndex b0 (getEdgePixels img.width img.height).length) ⟨0, 0⟩) ∧
    selectEdgeIndex b0 (getEdgePixels img.width img.height).length <
      (getEdgePixels img.width img.height).length ∧
    (∀ i, i < (getEdgePixels img.width img.height).length → i < 256 →
      ∃ b, b < 256 ∧ selectEdgeIndex b (getEdgePixels img.width img.height).length = i) ∧
    (∀ i, 256 ≤ i → ∀ b, b < 256 →
      selectEdgeIndex b (getEdgePixels img.width img.height).length ≠ i) := by
  refine ⟨?_, ?_, ?_, ?_⟩
  · unfold perturbEdgePixel
    rw [if_neg hne]
    exact ⟨_, rfl, rfl⟩
  · exact Nat.mod_lt _ (by omega)
  · intro i hilen hi256
    exact ⟨i, hi256, Nat.mod_eq_of_lt hilen⟩
  · intro i hi b hb256
    unfold selectEdgeIndex
    have := Nat.mod_le b (getEdgePixels img.width img.height).length
    omega

/-- C2 witness: the theorem at a concrete byte and 2×2 raster. -/
theorem c2_witness :
    (3 < 256 ∧ (getEdgePixels testImage.width testImage.height).length ≠ 0) ∧
    (∃ r, perturbEdgePixel testImage 3 0 = .ok r ∧
      r.selected = (getEdgePixels testImage.width testImage.height).getD
        (selectEdgeIndex 3 (getEdgePixels testImage.width testImage.height).length) ⟨0, 0⟩) :=
  ⟨⟨by decide, by decide⟩, (c2_selection_mod256 testImage 3 0 (by decide) (by decide)).1⟩

set_option maxRecDepth 4000 in
/-- C2 counterexample: on the 100×100 border list (396 entries) no
random byte value 0-255 ever selects index 300, so the selection is not
a uniform choice over the entire border-pixel set — border pixels at
index 256 and beyond are unreachable, refuting the claim that every
border pixel is selectable with equal probability. -/
theorem c2_counterexample :
    (getEdgePixels 100 100).length = 396 ∧
    (List.range 256).filter (fun b => selectEdgeIndex b 396 == 300) = [] := by
  constructor
  · decide
  · decide

/-- C9 (amended): the inserted JPEG comment segment is `0xFF 0xFE`
followed by two length bytes and the payload, but the two length bytes
encode `(payload length + 2) mod 65536` (each byte is a Go `byte(..)`
truncation), so the declared length equals `payload length + 2` exactly
when the payload is at most 65533 bytes — not for every payload, as the
unamended claim states (see the counterexample at 65534 bytes). -/
theorem c9_jpeg_comment_layout (data comment : Bytes) (h4 : 4 ≤ data.length) :
    insertJPEGComment data comment =
      data.take 2 ++ [0xFF, 0xFE, (comment.length + 2) >>> 8 % 256, (comment.length + 2) % 256] ++
        comment ++ data.drop 2 ∧
    beWord ((comment.length + 2) >>> 8 % 256) ((comment.length + 2) % 256) =
      (comment.length + 2) % 65536 ∧
    (comment.length ≤ 65533 →
      beWord ((comment.length + 2) >>> 8 % 256) ((comment.length + 2) % 256) =
        comment.length + 2) := by
  have hshift : (comment.length + 2) >>> 8 = (comment.length + 2) / 256 := by
    rw [Nat.shiftRight_eq_div_pow]
  refine ⟨?_, ?_, ?_⟩
  · unfold insertJPEGComment
    rw [if_neg (by omega)]
    simp [List.append_assoc]
  · unfold beWord
    rw [hshift]
    omega
  · intro hle
    unfold beWord
    rw [hshift]
    omega

/-- C9 witness: the theorem at a 4-byte buffer and a 3-byte payload. -/
theorem c9_witness :
    (4 ≤ ([255, 216, 255, 217] : Bytes).length ∧ ([1, 2, 3] : Bytes).length ≤ 65533) ∧
    beWord ((([1, 2, 3] : Bytes).length + 2) >>> 8 % 256)
        ((([1, 2, 3] : Bytes).length + 2) % 256) = ([1, 2, 3] : Bytes).length + 2 :=
  ⟨⟨by decide, by decide⟩,
   (c9_jpeg_comment_layout [255, 216, 255, 217] [1, 2, 3] (by decide)).2.2 (by decide)⟩

/-- C9 counterexample: for a payload of 65534 bytes the two length bytes
of the inserted segment (output positions 4 and 5) are both zero, so the
declared length is `beWord 0 0 = 0 ≠ 65536 = payload length + 2`,
refuting the claim's "including payloads longer than 65533 bytes". -/
theorem c9_counterexample :
    (List.replicate 65534 0).length = 65534 ∧
    (insertJPEGComment [255, 216, 255, 217] (List.replicate 65534 0)).getD 4 99 = 0 ∧
    (insertJPEGComment [255, 216, 255, 217] (List.replicate 65534 0)).getD 5 99 = 0 ∧
    beWord 0 0 ≠ 65534 + 2 := by
  have h1 : (65534 + 2) >>> 8 % 256 = 0 := by decide
  have h2 : (65534 + 2) % 256 = 0 := by decide
  have hout : insertJPEGComment [255, 216, 255, 217] (List.replicate 65534 0) =
      255 :: 216 :: 255 :: 254 :: 0 :: 0 :: (List.replicate 65534 0 ++ [255, 217]) := by
    unfold insertJPEGComment
    rw [if_neg (by decide)]
    simp only [List.length_replicate]
    rw [h1, h2]
    rw [show List.take 2 ([255, 216, 255, 217] : Bytes) = [255, 216] from rfl]
    rw [show List.drop 2 ([255, 216, 255, 217] : Bytes) = [255, 217] from rfl]
    rfl
  refine ⟨by rw [List.length_replicate], ?_, ?_, by decide⟩
  · rw [hout]
    rfl
  · rw [hout]
    rfl

/-- C10: a buffer shorter than 4 bytes passes through `insertJPEGComment`
unchanged, so the JPEG auxiliary-chunk and metadata modes produce output
byte-identical to the input and the digest guard reports the no-change
failure (not a container error). -/
theorem c10_short_buffer_noop (digest : Bytes → Bytes) (marshal : ImageMetadata → Bytes)
    (data c r16 r32 : Bytes) (metadata : ImageMetadata) (hlen : data.length < 4) :
    insertJPEGComment data c = data ∧
    modifyImageSHA1 digest (strB (".jpg")) data r16 r32 = .error .noOpFailure ∧
    modifyImageMetadata digest marshal (strB (".jpg")) data metadata = .error .noOpFailure := by
  have hins : ∀ c' : Bytes, insertJPEGComment data c' = data := by
    intro c'
    unfold insertJPEGComment
    rw [if_pos hlen]
  have hrem : removeJPEGComments data = data := by
    unfold removeJPEGComments
    rw [if_pos hlen]
  have hfmt : extFormat (strB (".jpg")) = some .jpeg := by decide
  refine ⟨hins c, ?_, ?_⟩
  · simp only [modifyImageSHA1, hfmt]
    rw [hins r16, if_pos rfl]
  · simp only [modifyImageMetadata, hfmt, modifyJPEGMetadata]
    rw [hrem, hins (marshal metadata), if_pos rfl]

/-- C10 witness: the theorem at the 2-byte buffer `FF D8`. -/
theorem c10_witness :
    ([255, 216] : Bytes).length < 4 ∧
    (insertJPEGComment [255, 216] [9] = [255, 216] ∧
     modifyImageSHA1 (fun l => l) (strB (".jpg")) [255, 216] [7] [8] = .error .noOpFailure ∧
     modifyImageMetadata (fun l => l) (fun _ => [1]) (strB (".jpg")) [255, 216] emptyMetadata =
       .error .noOpFailure) :=
  ⟨by decide,
   c10_short_buffer_noop (fun l => l) (fun _ => [1]) [255, 216] [9] [7] [8] emptyMetadata (by decide)⟩

/-- C7 (amended): on a buffer without the PNG signature, the metadata
mode, the metadata read, and the signature-checking auxiliary-chunk
function (`modifyPNGSHA1`, `imagesha1` variant) fail with
`InvalidContainer` and produce no bytes; but the `imagemodify`
auxiliary-chunk orchestrator performs no signature check at all — it
splices the `Random` tEXt chunk into the garbage buffer and succeeds
whenever the digest moves — and the pixel mode fails with the raster
decoder's `DecodeFailure`, not `InvalidContainer`. -/
theorem c7_png_path_errors (data : Bytes) (h : ¬ hasPNGSig data) :
    (∀ metadata, modifyPNGMetadata data metadata = .error .invalidContainer) ∧
    getPNGMetadataB data = .error .invalidContainer ∧
    (∀ r32, modifyPNGSHA1 r32 data = .error .invalidContainer) ∧
    (∀ (digest : Bytes → Bytes) (r16 r32 : Bytes),
      modifyImageSHA1 digest (strB (".png")) data r16 r32 =
        if digest (insertPNGTextChunk data kwRandom r32) = digest data then
          .error .noOpFailure
        else .ok (digest (insertPNGTextChunk data kwRandom r32),
                  insertPNGTextChunk data kwRandom r32)) ∧
    (∀ (digest : Bytes → Bytes) (jdec pdec : Bytes → Option GoImage)
        (jenc penc : GoImage → Option Bytes) (b0 b1 : Nat),
      (∀ b, ¬ hasPNGSig b → pdec b = none) →
      modifyImageSHA1ByPixel digest jdec jenc pdec penc (strB (".png")) data b0 b1 =
        .error .decodeFailure) := by
  have hfmt : extFormat (strB (".png")) = some .png := by decide
  refine ⟨?_, ?_, ?_, ?_, ?_⟩
  · intro metadata
    unfold modifyPNGMetadata
    rw [if_neg h]
  · unfold getPNGMetadataB
    rw [if_neg h]
  · intro r32
    unfold modifyPNGSHA1
    rw [if_neg h]
  · intro digest r16 r32
    simp only [modifyImageSHA1, hfmt]
  · intro digest jdec pdec jenc penc b0 b1 hp
    have hdec : pdec data = none := hp data h
    simp only [modifyImageSHA1ByPixel, hfmt, modifyPNGPixel, hdec]

/-- C7 counterexample: the claim says the auxiliary-chunk mode on a
non-PNG buffer yields `InvalidContainer` with the input untouched; in
fact the `imagemodify` orchestrator inserts the chunk without any
signature check and the operation succeeds (and the pixel mode's failure
is the decoder's, not the container check's). -/
theorem c7_counterexample :
    ¬ hasPNGSig ([1, 2, 3] : Bytes) ∧
    (modifyImageSHA1 (fun l => l) (strB (".png")) [1, 2, 3]
      (List.replicate 16 0) (List.replicate 32 0)).isOk = true := by
  constructor
  · decide
  · decide

/-- C7 witness: the theorem at the concrete non-PNG buffer `[1,2,3]`. -/
theorem c7_witness :
    ¬ hasPNGSig ([1, 2, 3] : Bytes) ∧
    modifyPNGMetadata [1, 2, 3] emptyMetadata = .error .invalidContainer ∧
    modifyImageSHA1ByPixel (fun l => l) (fun _ => none) (fun _ => none) (fun _ => none)
      (fun _ => none) (strB (".png")) [1, 2, 3] 0 0 = .error .decodeFailure :=
  ⟨by decide,
   (c7_png_path_errors [1, 2, 3] (by decide)).1 emptyMetadata,
   (c7_png_path_errors [1, 2, 3] (by decide)).2.2.2.2 (fun l => l) (fun _ => none)
     (fun _ => none) (fun _ => none) (fun _ => none) 0 0 (fun _ _ => rfl)⟩

/-- Reading back a big-endian 4-byte length prefix recovers the value
when it is representable in 32 bits. -/
theorem readBE32_be32_append (n : Nat) (rest : Bytes) (hn : n < 2 ^ 32) :
    readBE32 (be32 n ++ rest) = n := by
  simp [readBE32, be32]
  omega

/-- When the IEND walker reports an offset, the four bytes after the
4-byte length at that offset are `IEND`. -/
theorem findIENDAux_iendAt :
    ∀ fuel (rem : Bytes) (o : Nat), findIENDAux fuel rem = some o →
      ((rem.drop o).drop 4).take 4 = iendT := by
  intro fuel
  induction fuel with
  | zero => intro rem o h; exact absurd h (by simp [findIENDAux])
  | succ fuel ih =>
    intro rem o h
    rw [findIENDAux] at h
    by_cases h8 : rem.length ≤ 8
    · rw [if_pos h8] at h
      exact absurd h (by simp)
    · rw [if_neg h8] at h
      by_cases ht : (rem.drop 4).take 4 = iendT
      · rw [if_pos ht] at h
        have ho : o = 0 := by
          have := Option.some.inj h
          omega
        rw [ho]
        simpa using ht
      · rw [if_neg ht] at h
        rcases Option.map_eq_some'.mp h with ⟨o', ho', heq⟩
        have hih := ih (rem.drop (readBE32 rem + 12)) o' ho'
        rw [List.drop_drop, List.drop_drop] at hih
        rw [← heq, List.drop_drop]
        have harith : readBE32 rem + 12 + o' + 4 = (readBE32 rem + 12) + (o' + 4) := by omega
        rw [harith]
        exact hih

/-- C8: the constructed `tEXt` chunk is the 4-byte big-endian payload
length (`keyword‖0x00‖text`, read back exactly when representable in 32
bits), the type `tEXt`, the payload, and the big-endian CRC-32 (IEEE) of
type‖payload; it is spliced immediately before the chunk the IEND walker
found (whose type bytes are `IEND`), or appended at the buffer end when
no IEND chunk is found. -/
theorem c8_png_text_chunk (keyword text data : Bytes)
    (hlen : keyword.length + 1 + text.length < 2 ^ 32) :
    createPNGTextChunk keyword text =
      be32 (keyword.length + 1 + text.length) ++ tEXtT ++ (keyword ++ 0 :: text) ++
        be32 (crc32IEEE (tEXtT ++ (keyword ++ 0 :: text))) ∧
    readBE32 (createPNGTextChunk keyword text) = keyword.length + 1 + text.length ∧
    (∀ i, findPNGIENDChunk data = some i →
      insertPNGTextChunk data keyword text =
        data.take i ++ createPNGTextChunk keyword text ++ data.drop i ∧
      ((data.drop i).drop 4).take 4 = iendT) ∧
    (findPNGIENDChunk data = none →
      insertPNGTextChunk data keyword text = data ++ createPNGTextChunk keyword text) := by
  have hl : (keyword ++ 0 :: text).length = keyword.length + 1 + text.length := by
    simp
    omega
  have hchunk : createPNGTextChunk keyword text =
      be32 (keyword.length + 1 + text.length) ++ tEXtT ++ (keyword ++ 0 :: text) ++
        be32 (crc32IEEE (tEXtT ++ (keyword ++ 0 :: text))) := by
    simp only [createPNGTextChunk]
    rw [hl]
  refine ⟨hchunk, ?_, ?_, ?_⟩
  · rw [hchunk]
    simp only [List.append_assoc]
    exact readBE32_be32_append _ _ hlen
  · intro i hfind
    constructor
    · simp only [insertPNGTextChunk, hfind, Option.getD_some]
    · rcases Option.map_eq_some'.mp hfind with ⟨o, ho, heq⟩
      have hih := findIENDAux_iendAt _ _ _ ho
      rw [List.drop_drop, List.drop_drop] at hih
      rw [← heq, List.drop_drop]
      have harith : 8 + o + 4 = 8 + (o + 4) := by omega
      rw [harith]
      exact hih
  · intro hfind
    simp only [insertPNGTextChunk, hfind, Option.getD_none, List.take_length,
      List.drop_length, List.append_nil]

/-- A minimal signature-plus-IEND buffer for witnesses. -/
def pngWithIEND : Bytes := pngSig ++ ([0, 0, 0, 0] ++ iendT ++ [0, 0, 0, 0])

/-- C8 witness: the theorem at a one-byte keyword and text and the
minimal IEND-bearing buffer (IEND found at offset 8). -/
theorem c8_witness :
    (([65] : Bytes).length + 1 + ([66] : Bytes).length < 2 ^ 32 ∧
      findPNGIENDChunk pngWithIEND = some 8) ∧
    (insertPNGTextChunk pngWithIEND [65] [66] =
      pngWithIEND.take 8 ++ createPNGTextChunk [65] [66] ++ pngWithIEND.drop 8 ∧
    ((pngWithIEND.drop 8).drop 4).take 4 = iendT) :=
  ⟨⟨by decide, by decide⟩,
   (c8_png_text_chunk [65] [66] pngWithIEND (by decide)).2.2.1 8 (by decide)⟩

/-- The shared digest-guard tail of all three orchestrators: an `ok`
result forces a moved digest, and the returned digest is the output's. -/
theorem hashGuard_ok (digest : Bytes → Bytes) (data modified s out : Bytes)
    (h : (if digest modified = digest data then (.error ModError.noOpFailure)
          else Except.ok (digest modified, modified)) = Except.ok (s, out)) :
    digest out ≠ digest data ∧ s = digest out := by
  split at h
  · exact absurd h (by simp)
  · rename_i hne
    simp only [Except.ok.injEq, Prod.mk.injEq] at h
    obtain ⟨hs, hout⟩ := h
    subst hout
    exact ⟨hne, hs.symm⟩

/-- C1: each of the three modify modes succeeds only when the digest of
the produced output differs from the digest of the input (and returns
that new digest with the bytes handed to the write boundary); whenever
the format transform produces bytes whose digest equals the input's, the
whole operation fails with the no-change (`noOpFailure`) error, so no
bytes reach the write boundary. -/
theorem c1_modify_succeeds_only_if_digest_changes :
    (∀ (digest : Bytes → Bytes) (ext data r16 r32 s out : Bytes),
      modifyImageSHA1 digest ext data r16 r32 = .ok (s, out) →
        digest out ≠ digest data ∧ s = digest out) ∧
    (∀ (digest : Bytes → Bytes) (jdec pdec : Bytes → Option GoImage)
        (jenc penc : GoImage → Option Bytes) (ext data : Bytes) (b0 b1 : Nat)
        (s out : Bytes),
      modifyImageSHA1ByPixel digest jdec jenc pdec penc ext data b0 b1 = .ok (s, out) →
        digest out ≠ digest data ∧ s = digest out) ∧
    (∀ (digest : Bytes → Bytes) (marshal : ImageMetadata → Bytes) (ext data : Bytes)
        (metadata : ImageMetadata) (s out : Bytes),
      modifyImageMetadata digest marshal ext data metadata = .ok (s, out) →
        digest out ≠ digest data ∧ s = digest out) ∧
    (∀ (digest : Bytes → Bytes) (data r16 r32 : Bytes),
      digest (insertJPEGComment data r16) = digest data →
        modifyImageSHA1 digest (strB (".jpg")) data r16 r32 = .error .noOpFailure) ∧
    (∀ (digest : Bytes → Bytes) (data r16 r32 : Bytes),
      digest (insertPNGTextChunk data kwRandom r32) = digest data →
        modifyImageSHA1 digest (strB (".png")) data r16 r32 = .error .noOpFailure) ∧
    (∀ (digest : Bytes → Bytes) (jdec pdec : Bytes → Option GoImage)
        (jenc penc : GoImage → Option Bytes) (data : Bytes) (b0 b1 : Nat) (out : Bytes),
      modifyJPEGPixel jdec jenc b0 b1 data = .ok out → digest out = digest data →
        modifyImageSHA1ByPixel digest jdec jenc pdec penc (strB (".jpg")) data b0 b1 =
          .error .noOpFailure) ∧
    (∀ (digest : Bytes → Bytes) (jdec pdec : Bytes → Option GoImage)
        (jenc penc : GoImage → Option Bytes) (data : Bytes) (b0 b1 : Nat) (out : Bytes),
      modifyPNGPixel pdec penc b0 b1 data = .ok out → digest out = digest data →
        modifyImageSHA1ByPixel digest jdec jenc pdec penc (strB (".png")) data b0 b1 =
          .error .noOpFailure) ∧
    (∀ (digest : Bytes → Bytes) (marshal : ImageMetadata → Bytes) (data : Bytes)
        (metadata : ImageMetadata),
      digest (modifyJPEGMetadata marshal data metadata) = digest data →
        modifyImageMetadata digest marshal (strB (".jpg")) data metadata =
          .error .noOpFailure) ∧
    (∀ (digest : Bytes → Bytes) (marshal : ImageMetadata → Bytes) (data : Bytes)
        (metadata : ImageMetadata) (out : Bytes),
      modifyPNGMetadata data metadata = .ok out → digest out = digest data →
        modifyImageMetadata digest marshal (strB (".png")) data metadata =
          .error .noOpFailure) := by
  have hjpg : extFormat (strB (".jpg")) = some .jpeg := by decide
  have hpng : extFormat (strB (".png")) = some .png := by decide
  refine ⟨?_, ?_, ?_, ?_, ?_, ?_, ?_, ?_, ?_⟩
  · intro digest ext data r16 r32 s out h
    simp only [modifyImageSHA1] at h
    split at h
    · exact absurd h (by simp)
    · exact hashGuard_ok digest data _ s out h
    · exact hashGuard_ok digest data _ s out h
  · intro digest jdec pdec jenc penc ext data b0 b1 s out h
    simp only [modifyImageSHA1ByPixel] at h
    split at h
    · exact absurd h (by simp)
    · split at h
      · exact absurd h (by simp)
      · exact hashGuard_ok digest data _ s out h
    · split at h
      · exact absurd h (by simp)
      · exact hashGuard_ok digest data _ s out h
  · intro digest marshal ext data metadata s out h
    simp only [modifyImageMetadata] at h
    split at h
    · exact absurd h (by simp)
    · exact hashGuard_ok digest data _ s out h
    · split at h
      · exact absurd h (by simp)
      · exact hashGuard_ok digest data _ s out h
  · intro digest data r16 r32 heq
    simp only [modifyImageSHA1, hjpg]
    rw [if_pos heq]
  · intro digest data r16 r32 heq
    simp only [modifyImageSHA1, hpng]
    rw [if_pos heq]
  · intro digest jdec pdec jenc penc data b0 b1 out hok heq
    simp only [modifyImageSHA1ByPixel, hjpg, hok]
    rw [if_pos heq]
  · intro digest jdec pdec jenc penc data b0 b1 out hok heq
    simp only [modifyImageSHA1ByPixel, hpng, hok]
    rw [if_pos heq]
  · intro digest marshal data metadata heq
    simp only [modifyImageMetadata, hjpg]
    rw [if_pos heq]
  · intro digest marshal data metadata out hok heq
    simp only [modifyImageMetadata, hpng, hok]
    rw [if_pos heq]

/-- The auxiliary-chunk output for the 4-byte JPEG `FF D8 FF D9` and a
16-byte random block of 7s, used by the C1 witness. -/
def c1OutLit : Bytes :=
  [255, 216, 255, 254, 0, 18, 7, 7, 7, 7, 7, 7, 7, 7, 7, 7, 7, 7, 7, 7, 7, 7, 255, 217]

/-- C1 witness: with the identity digest the auxiliary-chunk mode on
`FF D8 FF D9` succeeds and its output digest differs from the input's;
with a constant digest the same transform trips the no-change guard. -/
theorem c1_witness :
    (modifyImageSHA1 (fun l => l) (strB (".jpg")) [255, 216, 255, 217]
        (List.replicate 16 7) [] = .ok (c1OutLit, c1OutLit) ∧
      ((fun l => l) c1OutLit ≠ (fun l => l) ([255, 216, 255, 217] : Bytes) ∧
        c1OutLit = (fun l => l) c1OutLit)) ∧
    ((fun _ : Bytes => ([] : Bytes)) (insertJPEGComment [255, 216, 255, 217] (List.replicate 16 7)) =
        (fun _ : Bytes => ([] : Bytes)) [255, 216, 255, 217] ∧
      modifyImageSHA1 (fun _ => []) (strB (".jpg")) [255, 216, 255, 217]
        (List.replicate 16 7) [] = .error .noOpFailure) :=
  ⟨⟨rfl,
    c1_modify_succeeds_only_if_digest_changes.1 (fun l => l) (strB (".jpg"))
      [255, 216, 255, 217] (List.replicate 16 7) [] c1OutLit c1OutLit rfl⟩,
   ⟨rfl,
    c1_modify_succeeds_only_if_digest_changes.2.2.2.1 (fun _ => []) [255, 216, 255, 217]
      (List.replicate 16 7) [] rfl⟩⟩

/-- All bytes of a list of flagged segments. -/
def segsAll (ss : List (Bytes × Bool)) : Bytes := flatCat (ss.map Prod.fst)

/-- Bytes of the segments flagged as kept. -/
def segsKept (ss : List (Bytes × Bool)) : Bytes :=
  flatCat ((ss.filter (fun s => s.2)).map Prod.fst)

theorem segsAll_nil : segsAll [] = [] := rfl

theorem segsAll_cons (b : Bytes) (f : Bool) (ss : List (Bytes × Bool)) :
    segsAll ((b, f) :: ss) = b ++ segsAll ss := rfl

theorem segsKept_nil : segsKept [] = [] := rfl

theorem segsKept_cons_true (b : Bytes) (ss : List (Bytes × Bool)) :
    segsKept ((b, true) :: ss) = b ++ segsKept ss := rfl

theorem segsKept_cons_false (b : Bytes) (ss : List (Bytes × Bool)) :
    segsKept ((b, false) :: ss) = segsKept ss := rfl

/-- The first two bytes of a buffer of length at least 2. -/
theorem take_two_eq (rem : Bytes) (h : 2 ≤ rem.length) :
    rem.take 2 = [rem.getD 0 0, rem.getD 1 0] := by
  cases rem with
  | nil => simp at h
  | cons a t =>
    cases t with
    | nil => simp at h
    | cons b r => rfl

/-- The chunk-type bytes of a whole taken chunk agree with the buffer's. -/
theorem take_seg_type (rem : Bytes) (n : Nat) (h : 8 ≤ n) :
    ((rem.take n).drop 4).take 4 = (rem.drop 4).take 4 := by
  rw [List.drop_take, List.take_take]
  congr 1
  omega

/-- Decomposition of the PNG text-chunk removal walk: the suffix splits
into consecutive segments, each kept verbatim or dropped, where every
dropped segment is a `tEXt`/`zTXt`/`iTXt` chunk — except possibly a
final tail, which is kept whole when a declared length overruns the
buffer but silently dropped (at most 8 bytes) when the loop guard stops
short of the buffer end. -/
theorem pngRemoveAux_decomp :
    ∀ fuel (rem : Bytes), rem.length ≤ fuel →
      ∃ (ss : List (Bytes × Bool)) (tail : Bytes) (keepTail : Bool),
        rem = segsAll ss ++ tail ∧
        pngRemoveAux fuel rem = segsKept ss ++ (if keepTail then tail else []) ∧
        (keepTail = false → tail.length ≤ 8) ∧
        (∀ s ∈ ss, s.2 = false →
          ((s.1.drop 4).take 4 = tEXtT ∨ (s.1.drop 4).take 4 = zTXtT ∨
            (s.1.drop 4).take 4 = iTXtT)) := by
  intro fuel
  induction fuel with
  | zero =>
    intro rem hlen
    have hnil : rem = [] := List.length_eq_zero.mp (by omega)
    subst hnil
    exact ⟨[], [], false, rfl, rfl, fun _ => by simp, by simp⟩
  | succ fuel ih =>
    intro rem hlen
    by_cases h8 : rem.length ≤ 8
    · refine ⟨[], rem, false, by simp [segsAll, flatCat], ?_, fun _ => h8, by simp⟩
      simp [pngRemoveAux, if_pos h8, segsKept, flatCat]
    · by_cases hov : rem.length < readBE32 rem + 12
      · refine ⟨[], rem, true, by simp [segsAll, flatCat], ?_, by simp, by simp⟩
        simp [pngRemoveAux, if_neg h8, if_pos hov, segsKept, flatCat]
      · have hrec := ih (rem.drop (readBE32 rem + 12))
          (by simp only [List.length_drop]; omega)
        obtain ⟨ss', tail', kt', h1, h2, h3, h4⟩ := hrec
        by_cases htxt : (rem.drop 4).take 4 = tEXtT ∨ (rem.drop 4).take 4 = zTXtT ∨
            (rem.drop 4).take 4 = iTXtT
        · refine ⟨(rem.take (readBE32 rem + 12), false) :: ss', tail', kt', ?_, ?_, h3, ?_⟩
          · conv_lhs => rw [← List.take_append_drop (readBE32 rem + 12) rem]
            rw [h1]
            simp [segsAll_cons, List.append_assoc]
          · simp only [pngRemoveAux, if_neg h8, if_neg hov, if_pos htxt]
            rw [h2, segsKept_cons_false]
          · intro s hs hsf
            rcases List.mem_cons.mp hs with heq | hmem
            · rw [heq]
              rw [show ((rem.take (readBE32 rem + 12), false) : Bytes × Bool).1 =
                rem.take (readBE32 rem + 12) from rfl]
              rw [take_seg_type rem _ (by omega)]
              exact htxt
            · exact h4 s hmem hsf
        · refine ⟨(rem.take (readBE32 rem + 12), true) :: ss', tail', kt', ?_, ?_, h3, ?_⟩
          · conv_lhs => rw [← List.take_append_drop (readBE32 rem + 12) rem]
            rw [h1]
            simp [segsAll_cons, List.append_assoc]
          · simp only [pngRemoveAux, if_neg h8, if_neg hov, if_neg htxt]
            rw [h2, segsKept_cons_true]
            simp [List.append_assoc]
          · intro s hs hsf
            rcases List.mem_cons.mp hs with heq | hmem
            · rw [heq] at hsf
              simp at hsf
            · exact h4 s hmem hsf

/-- Decomposition of the JPEG comment-removal walk: the suffix splits
into consecutive segments, each kept verbatim or dropped, where every
dropped segment starts with the `0xFF 0xFE` comment marker — except
possibly a final tail, kept whole when the walk stops on a non-marker
byte or a length-less marker, but silently dropped (at most 4 bytes)
when the loop guard stops short of the buffer end. -/
theorem jpegRemoveAux_decomp :
    ∀ fuel (rem : Bytes), rem.length ≤ fuel →
      ∃ (ss : List (Bytes × Bool)) (tail : Bytes) (keepTail : Bool),
        rem = segsAll ss ++ tail ∧
        jpegRemoveAux fuel rem = segsKept ss ++ (if keepTail then tail else []) ∧
        (keepTail = false → tail.length ≤ 4) ∧
        (∀ s ∈ ss, s.2 = false → s.1.take 2 = [0xFF, 0xFE]) := by
  intro fuel
  induction fuel with
  | zero =>
    intro rem hlen
    have hnil : rem = [] := List.length_eq_zero.mp (by omega)
    subst hnil
    exact ⟨[], [], false, rfl, rfl, fun _ => by simp, by simp⟩
  | succ fuel ih =>
    intro rem hlen
    by_cases hg : rem.length ≤ 4
    · refine ⟨[], rem, false, by simp [segsAll, flatCat], ?_, fun _ => hg, by simp⟩
      simp [jpegRemoveAux, if_pos hg, segsKept, flatCat]
    · by_cases hff : rem.getD 0 0 ≠ 0xFF
      · refine ⟨[], rem, true, by simp [segsAll, flatCat], ?_, by simp, by simp⟩
        simp only [jpegRemoveAux]
        rw [if_neg hg, if_pos hff, segsKept_nil]
        simp
      · have hff0 : rem.getD 0 0 = 0xFF := not_not.mp hff
        by_cases hcm : rem.getD 1 0 = 0xFE
        · have hrec := ih (rem.drop (2 + beWord (rem.getD 2 0) (rem.getD 3 0)))
            (by simp only [List.length_drop]; omega)
          obtain ⟨ss', tail', kt', h1, h2, h3, h4⟩ := hrec
          refine ⟨(rem.take (2 + beWord (rem.getD 2 0) (rem.getD 3 0)), false) :: ss',
            tail', kt', ?_, ?_, h3, ?_⟩
          · conv_lhs =>
              rw [← List.take_append_drop (2 + beWord (rem.getD 2 0) (rem.getD 3 0)) rem]
            rw [h1]
            simp [segsAll_cons, List.append_assoc]
          · simp only [jpegRemoveAux, if_neg hg, if_neg hff, if_pos hcm]
            rw [h2, segsKept_cons_false]
          · intro s hs hsf
            rcases List.mem_cons.mp hs with heq | hmem
            · rw [heq]
              rw [show ((rem.take (2 + beWord (rem.getD 2 0) (rem.getD 3 0)), false) :
                Bytes × Bool).1 = rem.take (2 + beWord (rem.getD 2 0) (rem.getD 3 0)) from rfl]
              rw [List.take_take, show min 2 (2 + beWord (rem.getD 2 0) (rem.getD 3 0)) = 2
                from by omega]
              rw [take_two_eq rem (by omega), hff0, hcm]
            · exact h4 s hmem hsf
        · by_cases happ : (0xE0 ≤ rem.getD 1 0 ∧ rem.getD 1 0 ≤ 0xEF) ∨ rem.getD 1 0 = 0xFE
          · have hrec := ih (rem.drop (2 + beWord (rem.getD 2 0) (rem.getD 3 0)))
              (by simp only [List.length_drop]; omega)
            obtain ⟨ss', tail', kt', h1, h2, h3, h4⟩ := hrec
            refine ⟨(rem.take (2 + beWord (rem.getD 2 0) (rem.getD 3 0)), true) :: ss',
              tail', kt', ?_, ?_, h3, ?_⟩
            · conv_lhs =>
                rw [← List.take_append_drop (2 + beWord (rem.getD 2 0) (rem.getD 3 0)) rem]
              rw [h1]
              simp [segsAll_cons, List.append_assoc]
            · simp only [jpegRemoveAux, if_neg hg, if_neg hff, if_neg hcm, if_pos happ]
              rw [h2, segsKept_cons_true]
              rw [List.take_add rem 2 (beWord (rem.getD 2 0) (rem.getD 3 0))]
              rw [take_two_eq rem (by omega), hff0]
              simp [List.append_assoc]
            · intro s hs hsf
              rcases List.mem_cons.mp hs with heq | hmem
              · rw [heq] at hsf
                simp at hsf
              · exact h4 s hmem hsf
          · refine ⟨[], rem, true, by simp [segsAll, flatCat], ?_, by simp, by simp⟩
            simp only [jpegRemoveAux]
            rw [if_neg hg, if_neg hff, if_neg hcm, if_neg happ, segsKept_nil]
            have hrem : ([255, rem.getD 1 0] : Bytes) ++ rem.drop 2 = rem := by
              conv_rhs => rw [← List.take_append_drop 2 rem]
              rw [take_two_eq rem (by omega), hff0]
            simpa using hrem

/-- C3 (amended): each removal walk copies every byte outside the
removed regions verbatim and in order — every dropped interior segment
really is a text chunk (PNG) or a `0xFF 0xFE` comment segment (JPEG) —
except that when the scan loop's guard stops short of the buffer end, a
trailing tail of at most 8 bytes (PNG) / 4 bytes (JPEG) is silently
dropped, contrary to the claim's "never silently truncated" (see the
counterexample). The PNG part assumes the caller-guaranteed
`8 ≤ data.length` (Go indexes `data[:8]` unconditionally). -/
theorem c3_remove_decomposition (data : Bytes) :
    (8 ≤ data.length →
      ∃ (ss : List (Bytes × Bool)) (tail : Bytes) (keepTail : Bool),
        data = data.take 8 ++ segsAll ss ++ tail ∧
        removeExistingTextChunks data =
          data.take 8 ++ (segsKept ss ++ (if keepTail then tail else [])) ∧
        (keepTail = false → tail.length ≤ 8) ∧
        (∀ s ∈ ss, s.2 = false →
          ((s.1.drop 4).take 4 = tEXtT ∨ (s.1.drop 4).take 4 = zTXtT ∨
            (s.1.drop 4).take 4 = iTXtT))) ∧
    (4 ≤ data.length →
      ∃ (ss : List (Bytes × Bool)) (tail : Bytes) (keepTail : Bool),
        data = data.take 2 ++ segsAll ss ++ tail ∧
        removeJPEGComments data =
          data.take 2 ++ (segsKept ss ++ (if keepTail then tail else [])) ∧
        (keepTail = false → tail.length ≤ 4) ∧
        (∀ s ∈ ss, s.2 = false → s.1.take 2 = [0xFF, 0xFE])) := by
  constructor
  · intro h8
    obtain ⟨ss, tail, kt, h1, h2, h3, h4⟩ :=
      pngRemoveAux_decomp (data.drop 8).length (data.drop 8) le_rfl
    refine ⟨ss, tail, kt, ?_, ?_, h3, h4⟩
    · conv_lhs => rw [← List.take_append_drop 8 data]
      rw [h1, List.append_assoc]
    · unfold removeExistingTextChunks
      rw [h2]
  · intro h4'
    obtain ⟨ss, tail, kt, h1, h2, h3, h4⟩ :=
      jpegRemoveAux_decomp (data.drop 2).length (data.drop 2) le_rfl
    refine ⟨ss, tail, kt, ?_, ?_, h3, h4⟩
    · conv_lhs => rw [← List.take_append_drop 2 data]
      rw [h1, List.append_assoc]
    · unfold removeJPEGComments
      rw [if_neg (by omega), h2]

/-- C3 counterexample: four trailing bytes after the PNG signature (and
three after a JPEG's first two bytes) lie outside every removed region
yet vanish from the output — the walks silently truncate short tails,
refuting the claim that every byte outside a removed region is copied
through verbatim. -/
theorem c3_counterexample :
    removeExistingTextChunks (pngSig ++ [1, 2, 3, 4]) = pngSig ∧
    pngSig ++ [1, 2, 3, 4] ≠ pngSig ∧
    removeJPEGComments [255, 216, 1, 2, 3] = [255, 216] ∧
    ([255, 216, 1, 2, 3] : Bytes) ≠ [255, 216] := by
  refine ⟨by decide, by decide, by decide, by decide⟩

/-- C3 witness: the PNG half of the theorem at the truncating buffer. -/
theorem c3_witness :
    8 ≤ (pngSig ++ [1, 2, 3, 4] : Bytes).length ∧
    (∃ (ss : List (Bytes × Bool)) (tail : Bytes) (keepTail : Bool),
      pngSig ++ [1, 2, 3, 4] = (pngSig ++ [1, 2, 3, 4] : Bytes).take 8 ++ segsAll ss ++ tail ∧
      removeExistingTextChunks (pngSig ++ [1, 2, 3, 4]) =
        (pngSig ++ [1, 2, 3, 4] : Bytes).take 8 ++ (segsKept ss ++ (if keepTail then tail else [])) ∧
      (keepTail = false → tail.length ≤ 8) ∧
      (∀ s ∈ ss, s.2 = false →
        ((s.1.drop 4).take 4 = tEXtT ∨ (s.1.drop 4).take 4 = zTXtT ∨
          (s.1.drop 4).take 4 = iTXtT))) :=
  ⟨by decide, (c3_remove_decomposition (pngSig ++ [1, 2, 3, 4])).1 (by decide)⟩

/-- A PNG chunk as the walkers see it: type, payload, and trailing CRC
bytes (none of the walkers validates the CRC, so it is carried as raw
bytes). -/
structure PNGChunk where
  ctype : Bytes
  payload : Bytes
  crc : Bytes

/-- On-wire encoding of a chunk: BE32 payload length, type, payload,
CRC bytes. -/
def encodeChunk (c : PNGChunk) : Bytes :=
  be32 c.payload.length ++ c.ctype ++ c.payload ++ c.crc

/-- On-wire encoding of a chunk list. -/
def chunksBytes (cs : List PNGChunk) : Bytes := flatCat (cs.map encodeChunk)

/-- A zero-length IEND chunk with the given 4 CRC bytes. -/
def iendChunk (crc : Bytes) : Bytes := be32 0 ++ iendT ++ crc

/-- Structural well-formedness of an interior chunk: 4 type bytes, 4 CRC
bytes, a 32-bit-representable payload length, and a type other than
`IEND`. -/
def wfChunk (c : PNGChunk) : Prop :=
  c.ctype.length = 4 ∧ c.crc.length = 4 ∧ c.payload.length < 2 ^ 32 ∧ c.ctype ≠ iendT

/-- The three removable text-chunk types. -/
def isTextType (t : Bytes) : Bool := t == tEXtT || t == zTXtT || t == iTXtT

/-- What survives the metadata round trip: every field of `M` except
that non-positive width/height (which the encoder treats as unset) read
back as the zero value. -/
def canonMeta (m : ImageMetadata) : ImageMetadata :=
  { m with imageWidth := if 0 < m.imageWidth then m.imageWidth else 0
           imageHeight := if 0 < m.imageHeight then m.imageHeight else 0 }

/-- Validity of an optional timestamp. -/
def dtOk : Option GoTime → Prop
  | some t => timeOk t
  | none => True

instance : (o : Option GoTime) → Decidable (dtOk o)
  | some t => (inferInstance : Decidable (timeOk t))
  | none => .isTrue trivial

/-- Representability bounds under which the metadata round trip is
exact: string fields fit a 32-bit chunk length, width/height fit a Go
`int`, and the timestamp (if set) is within `time.Parse` ranges. -/
def metaOk (m : ImageMetadata) : Prop :=
  m.artist.length < 2 ^ 32 - 32 ∧ m.copyright.length < 2 ^ 32 - 32 ∧
  m.description.length < 2 ^ 32 - 32 ∧ m.location.length < 2 ^ 32 - 32 ∧
  m.cameraMake.length < 2 ^ 32 - 32 ∧ m.cameraModel.length < 2 ^ 32 - 32 ∧
  m.software.length < 2 ^ 32 - 32 ∧
  m.imageWidth < 2 ^ 63 ∧ m.imageHeight < 2 ^ 63 ∧ dtOk m.dateTime

instance (m : ImageMetadata) : Decidable (metaOk m) := by
  unfold metaOk; infer_instance

/-- The chunk record whose encoding is `createPNGTextChunk keyword text`. -/
def textChunkRec (keyword text : Bytes) : PNGChunk :=
  ⟨tEXtT, keyword ++ 0 :: text, be32 (crc32IEEE (tEXtT ++ (keyword ++ 0 :: text)))⟩

theorem encode_textChunkRec (keyword text : Bytes) :
    encodeChunk (textChunkRec keyword text) = createPNGTextChunk keyword text := rfl

/-- The chunk records produced by `createPNGTextChunks`, in order. -/
def metaChunkRecords (metadata : ImageMetadata) : List PNGChunk :=
  (if metadata.artist ≠ [] then [textChunkRec kwAuthor metadata.artist] else []) ++
  (if metadata.copyright ≠ [] then [textChunkRec kwCopyright metadata.copyright] else []) ++
  (if metadata.description ≠ [] then [textChunkRec kwDescription metadata.description] else []) ++
  (match metadata.dateTime with
   | some t => [textChunkRec kwCreationTime (formatCreationTime t)]
   | none => []) ++
  (if metadata.location ≠ [] then [textChunkRec kwLocation metadata.location] else []) ++
  (if metadata.cameraMake ≠ [] then [textChunkRec kwCameraMake metadata.cameraMake] else []) ++
  (if metadata.cameraModel ≠ [] then [textChunkRec kwCameraModel metadata.cameraModel] else []) ++
  (if metadata.software ≠ [] then [textChunkRec kwSoftware metadata.software] else []) ++
  (if 0 < metadata.imageWidth then [textChunkRec kwImageWidth (itoa metadata.imageWidth)] else []) ++
  (if 0 < metadata.imageHeight then [textChunkRec kwImageHeight (itoa metadata.imageHeight)] else [])

/-- `createPNGTextChunks` encodes exactly the records of
`metaChunkRecords`. -/
theorem createPNGTextChunks_eq (metadata : ImageMetadata) :
    createPNGTextChunks metadata = (metaChunkRecords metadata).map encodeChunk := by
  cases hdt : metadata.dateTime <;>
    simp [createPNGTextChunks, metaChunkRecords, hdt, apply_ite (List.map encodeChunk),
      encode_textChunkRec]

/-- `flatCat` of mapped encodings is `chunksBytes`. -/
theorem flatCat_map_encode (cs : List PNGChunk) :
    flatCat (cs.map encodeChunk) = chunksBytes cs := rfl

theorem encodeChunk_length (c : PNGChunk) (h : wfChunk c) :
    (encodeChunk c).length = c.payload.length + 12 := by
  obtain ⟨h1, h2, _, _⟩ := h
  simp [encodeChunk, be32, h1, h2]
  omega

theorem iendT_length : iendT.length = 4 := by decide

theorem iendChunk_length (crc : Bytes) (h : crc.length = 4) :
    (iendChunk crc).length = 12 := by
  simp [iendChunk, be32, h, iendT_length]

theorem pngRemoveAux_nil (fuel : Nat) : pngRemoveAux fuel [] = [] := by
  cases fuel <;> simp [pngRemoveAux]

theorem readBE32_chunk (c : PNGChunk) (rest : Bytes) (h : wfChunk c) :
    readBE32 (encodeChunk c ++ rest) = c.payload.length := by
  obtain ⟨_, _, h3, _⟩ := h
  rw [encodeChunk]
  simp only [List.append_assoc]
  exact readBE32_be32_append _ _ h3

theorem ctype_chunk (c : PNGChunk) (rest : Bytes) (h : wfChunk c) :
    ((encodeChunk c ++ rest).drop 4).take 4 = c.ctype := by
  obtain ⟨h1, _, _, _⟩ := h
  rw [encodeChunk]
  simp only [List.append_assoc]
  rw [List.drop_left' (by simp [be32])]
  rw [List.take_left' h1]

theorem drop_chunk (c : PNGChunk) (rest : Bytes) (h : wfChunk c) :
    (encodeChunk c ++ rest).drop (c.payload.length + 12) = rest :=
  List.drop_left' (encodeChunk_length c h)

theorem take_chunk (c : PNGChunk) (rest : Bytes) (h : wfChunk c) :
    (encodeChunk c ++ rest).take (c.payload.length + 12) = encodeChunk c :=
  List.take_left' (encodeChunk_length c h)

theorem payload_chunk (c : PNGChunk) (rest : Bytes) (h : wfChunk c) :
    ((encodeChunk c ++ rest).drop 8).take c.payload.length = c.payload := by
  obtain ⟨h1, _, _, _⟩ := h
  rw [encodeChunk]
  simp only [List.append_assoc]
  rw [show ∀ l : Bytes, l.drop 8 = (l.drop 4).drop 4 from fun l => by
    rw [List.drop_drop]]
  rw [List.drop_left' (by simp [be32])]
  rw [List.drop_left' h1]
  exact List.take_left _ _

theorem length_chunk_append (c : PNGChunk) (rest : Bytes) (h : wfChunk c) :
    (encodeChunk c ++ rest).length = c.payload.length + 12 + rest.length := by
  rw [List.length_append, encodeChunk_length c h]

theorem readBE32_iend (crc : Bytes) : readBE32 (iendChunk crc) = 0 := by
  rw [iendChunk]
  simp only [List.append_assoc]
  exact readBE32_be32_append _ _ (by norm_num)

theorem ctype_iend (crc : Bytes) : ((iendChunk crc).drop 4).take 4 = iendT := by
  rw [iendChunk]
  simp only [List.append_assoc]
  rw [List.drop_left' (by simp [be32])]
  rw [List.take_left' iendT_length]

theorem isTextType_iff (t : Bytes) :
    isTextType t = true ↔ (t = tEXtT ∨ t = zTXtT ∨ t = iTXtT) := by
  simp [isTextType, or_assoc]
